import Mathlib

/-
Verification of the MIME message engine in `src/modules/mime.js`
(Mailvelope): the decode path (`parseMessage`, `parseMIME`, `parseInline`,
`filterBodyParts`) and the four MIME builders (`buildMail`, `buildPGPMail`,
`buildTextMail`, `buildMailWithHeader`) with their quota accounting.

External collaborators (the structural parser `mailreader`, the HTML
sanitizer, the text/HTML converters `text2autoLinkHtml` / `html2text`, the
filename escaper `encodeHTML`, the buffer conversion `ab2str`) are taken as
function parameters: the module under verification only pipes data through
them.  `byteCount` lives in `lib/util` (outside the sources shown), so it is
modelled from the specification.  The JavaScript built-ins
`encodeURIComponent` / `unescape` used for the pseudo-binary transcoding are
embedded from their ECMAScript semantics.
-/

namespace Mvelo

/-! ## Part trees (output of the structural parser)

A decoded body part either carries string content (text, html, attachment
after conversion) or an ordered array of child parts (multipart container).
`filterBodyParts` in the source distinguishes exactly these two shapes via
`Array.isArray(part.content)`. -/

inductive Part where
  | leaf (ptype : String) (filename : String) (content : String)
  | node (ptype : String) (children : List Part)

/-- The string content of a part, as read by `part.content` on a
non-container part.  Container parts carry no string content. -/
def Part.contentStr : Part → String
  | .leaf _ _ c => c
  | .node _ _ => ""

/-- The filename of a part, as read by `part.filename`. -/
def Part.filenameStr : Part → String
  | .leaf _ f _ => f
  | .node _ _ => ""

mutual

/-- Embedding of `filterBodyParts(bodyParts, type, result)`: push parts whose
`type` matches, otherwise recurse into array-valued content; visit the
parts in order. -/
def filterBodyParts : List Part → String → List Part
  | [], _ => []
  | p :: rest, ty => filterOnePart p ty ++ filterBodyParts rest ty

/-- The action of `filterBodyParts` on one part: push it if its `type`
matches, otherwise recurse when its content is an array. -/
def filterOnePart : Part → String → List Part
  | .leaf t f c, ty => if t = ty then [Part.leaf t f c] else []
  | .node t ch, ty => if t = ty then [Part.node t ch] else filterBodyParts ch ty

end

mutual

/-- Modelled from the spec: depth-first collection of every
`attachment`-kind part anywhere in the tree, recursing through all container
children and preserving child order (spec section 4.2 step 4). -/
def dfsAttachments : List Part → List Part
  | [] => []
  | p :: rest => dfsAttachmentsOne p ++ dfsAttachments rest

/-- Modelled from the spec: depth-first collection below a single part. -/
def dfsAttachmentsOne : Part → List Part
  | .leaf t f c => if t = "attachment" then [Part.leaf t f c] else []
  | .node t ch =>
      (if t = "attachment" then [Part.node t ch] else []) ++ dfsAttachments ch

end

mutual

/-- Well-formedness of a part list with respect to the spec's data model
(section 3): content-bearing kinds (`text`, `html`, `attachment`) hold
string/buffer content, only container parts hold child arrays. -/
def wfParts : List Part → Bool
  | [] => true
  | p :: rest => wfPart p && wfParts rest

/-- Well-formedness of a single part. -/
def wfPart : Part → Bool
  | .leaf _ _ _ => true
  | .node t ch =>
      !(t = "text" || t = "html" || t = "attachment") && wfParts ch

end

/-! ## Decode events

The decode path reports its results through the caller-supplied handlers
`onMessage` / `onAttachment`; a decode run is modelled by the ordered list
of callback invocations it performs. -/

inductive Event where
  | message (body : String)
  | attachment (filename : String) (content : String)
deriving DecidableEq, Repr

/-- The bodies passed to `handlers.onMessage`, in order. -/
def messageEvents (evs : List Event) : List String :=
  evs.filterMap fun e =>
    match e with
    | .message b => some b
    | .attachment _ _ => none

/-- Number of `onMessage` invocations. -/
def messageCount (evs : List Event) : Nat :=
  (messageEvents evs).length

/-- The `(filename, content)` pairs passed to `handlers.onAttachment`, in
order. -/
def attachmentEvents (evs : List Event) : List (String × String) :=
  evs.filterMap fun e =>
    match e with
    | .message _ => none
    | .attachment f c => some (f, c)

/-- Body selection of `parseMIME` (spec: BodySelector): for `html`, prefer
sanitized html parts joined by a rule separator, falling back to auto-linked
text parts; for `text`, prefer text parts joined by blank lines, falling
back to converted html parts.  `S` is `mvelo.util.sanitizeHTML`, `A` is
`mvelo.util.text2autoLinkHtml`, `H` is `html2text`. -/
def selectBody (S A H : String → String) (parsed : List Part) (encoding : String) :
    Option String :=
  if encoding = "html" then
    let htmlParts := filterBodyParts parsed "html"
    if htmlParts.isEmpty then
      let textParts := filterBodyParts parsed "text"
      if textParts.isEmpty then none
      else some (String.intercalate "<hr>" (textParts.map fun p => A p.contentStr))
    else some (S (String.intercalate "\n<hr>\n" (htmlParts.map Part.contentStr)))
  else if encoding = "text" then
    let textParts := filterBodyParts parsed "text"
    if textParts.isEmpty then
      let htmlParts := filterBodyParts parsed "html"
      if htmlParts.isEmpty then none
      else some (String.intercalate "\n\n" (htmlParts.map fun p => H p.contentStr))
    else some (String.intercalate "\n\n" (textParts.map Part.contentStr))
  else none

/-- Embedding of the callback body of `parseMIME`, applied to the part list
`parsed` delivered by the structural parser.  `eH` is `encodeHTML` applied
to attachment filenames, `a2s` is `ab2str` applied to attachment buffers.
The trailing `onMessage('')` fires whenever `handlers.noEvent` is set at the
end of the callback. -/
def parseMIMEEvents (S A H eH a2s : String → String) (parsed : List Part)
    (encoding : String) (noEvent : Bool) : List Event :=
  (if parsed.isEmpty then []
   else
     (match selectBody S A H parsed encoding with
      | some b => [Event.message b]
      | none => []) ++
     (filterBodyParts parsed "attachment").map fun p =>
       Event.attachment (eH p.filenameStr) (a2s p.contentStr)) ++
  (if noEvent then [Event.message ""] else [])

/-- Embedding of `parseInline`: html mode auto-links the raw text; text mode
strips legacy HTML when a closing-tag marker is found, else passes the raw
text through unchanged. -/
def parseInlineEvents (A H : String → String) (hasLegacy : Bool) (rawText : String)
    (encoding : String) : List Event :=
  if encoding = "html" then [Event.message (A rawText)]
  else if hasLegacy then [Event.message (H rawText)]
  else [Event.message rawText]

/-! ## Dispatch between the MIME and inline decode paths -/

/-- Does `l` start with `pat`? -/
def startsWithChars : List Char → List Char → Bool
  | [], _ => true
  | _ :: _, [] => false
  | p :: ps, c :: cs => p = c && startsWithChars ps cs

/-- Does `pat` occur as a contiguous run inside `l`? -/
def containsSub (pat : List Char) : List Char → Bool
  | [] => startsWithChars pat []
  | c :: cs => startsWithChars pat (c :: cs) || containsSub pat cs

/-- ECMAScript white space and line terminators matched by `\s`. -/
def jsWhitespace (c : Char) : Bool :=
  let v := c.toNat
  v = 9 || v = 10 || v = 11 || v = 12 || v = 13 || v = 32 || v = 0xA0 ||
  v = 0x1680 || (0x2000 ≤ v && v ≤ 0x200A) || v = 0x2028 || v = 0x2029 ||
  v = 0x202F || v = 0x205F || v = 0x3000 || v = 0xFEFF

/-- The header names of the dispatch regular expression in `parseMessage`. -/
def mimeHeaderNames : List String :=
  ["MIME-Version", "Content-Type", "Content-Transfer-Encoding", "From",
   "Date", "Content-Language"]

/-- Embedding of the test
`/^\s*(MIME-Version|Content-Type|Content-Transfer-Encoding|From|Date|Content-Language):/`:
after optional leading white space, the input starts with one of the six
header names followed by a colon. -/
def startsWithMIMEHeader (s : String) : Bool :=
  let t := s.data.dropWhile fun c => jsWhitespace c
  mimeHeaderNames.any fun h => startsWithChars (h ++ ":").data t

/-- The legacy-HTML heuristic of `parseInline`:
`/(<\/a>|<br>|<\/div>|<\/p>|<\/b>|<\/u>|<\/i>|<\/ul>|<\/li>)/`. -/
def hasLegacyHTMLTag (s : String) : Bool :=
  ["</a>", "<br>", "</div>", "</p>", "</b>", "</u>", "</i>", "</ul>", "</li>"].any
    fun t => containsSub t.data s.data

/-! ## Pseudo-binary transcoding: `unescape(encodeURIComponent(rawText))`

Embedded from the ECMAScript semantics of the two built-ins:
`encodeURIComponent` leaves unreserved characters alone and percent-encodes
the UTF-8 bytes of every other character with uppercase hexadecimal digits;
`unescape` replaces `%uXXXX` and `%XX` escape sequences by the character
with that code and leaves everything else alone. -/

/-- UTF-8 encoding of a single scalar value. -/
def utf8BytesChar (c : Char) : List Nat :=
  let v := c.toNat
  if v < 0x80 then [v]
  else if v < 0x800 then [0xC0 + v / 64, 0x80 + v % 64]
  else if v < 0x10000 then
    [0xE0 + v / 4096, 0x80 + v / 64 % 64, 0x80 + v % 64]
  else
    [0xF0 + v / 262144, 0x80 + v / 4096 % 64, 0x80 + v / 64 % 64, 0x80 + v % 64]

/-- UTF-8 encoding of a character sequence. -/
def utf8Bytes : List Char → List Nat
  | [] => []
  | c :: cs => utf8BytesChar c ++ utf8Bytes cs

/-- UTF-16 code units of a character (a surrogate pair above U+FFFF). -/
def utf16Units (c : Char) : List Nat :=
  let v := c.toNat
  if v < 0x10000 then [v]
  else [0xD800 + (v - 0x10000) / 0x400, 0xDC00 + (v - 0x10000) % 0x400]

/-- UTF-16 code units of a character sequence. -/
def utf16CodeUnits : List Char → List Nat
  | [] => []
  | c :: cs => utf16Units c ++ utf16CodeUnits cs

/-- Uppercase hexadecimal digit, as emitted by `encodeURIComponent`. -/
def hexDigitU (n : Nat) : Char :=
  if n < 10 then Char.ofNat (48 + n) else Char.ofNat (55 + n)

/-- Numeric value of a hexadecimal digit character, `none` otherwise. -/
def hexVal (c : Char) : Option Nat :=
  let v := c.toNat
  if 48 ≤ v ∧ v ≤ 57 then some (v - 48)
  else if 65 ≤ v ∧ v ≤ 70 then some (v - 55)
  else if 97 ≤ v ∧ v ≤ 102 then some (v - 87)
  else none

/-- The unreserved set of `encodeURIComponent`:
`A`-`Z`, `a`-`z`, `0`-`9` and `- _ . ! ~ * ( )` and the apostrophe
(codes 45, 95, 46, 33, 126, 42, 39, 40, 41). -/
def isUnreservedURI (c : Char) : Bool :=
  let v := c.toNat
  (65 ≤ v && v ≤ 90) || (97 ≤ v && v ≤ 122) || (48 ≤ v && v ≤ 57) ||
  v = 45 || v = 95 || v = 46 || v = 33 || v = 126 || v = 42 || v = 39 ||
  v = 40 || v = 41

/-- `%XY` escape of a byte, uppercase hexadecimal. -/
def percentByte (b : Nat) : List Char :=
  ['%', hexDigitU (b / 16), hexDigitU (b % 16)]

/-- `encodeURIComponent` on a single character. -/
def encodeURIChar (c : Char) : List Char :=
  if isUnreservedURI c then [c]
  else ((utf8BytesChar c).map percentByte).flatten

/-- `encodeURIComponent` on a character sequence. -/
def encodeURIComponentChars : List Char → List Char
  | [] => []
  | c :: cs => encodeURIChar c ++ encodeURIComponentChars cs

/-- ECMAScript `unescape` (annex B.2.1.2): a `%` starting a `%uXXXX`
sequence of four hexadecimal digits yields that code unit; otherwise a `%`
followed by two hexadecimal digits yields that code; otherwise the
character is copied unchanged. -/
def unescapeChars : List Char → List Char
  | [] => []
  | '%' :: cs@(c1 :: c2 :: rest5@(c3 :: c4 :: c5 :: rest)) =>
    if c1 = 'u' then
      match hexVal c2, hexVal c3, hexVal c4, hexVal c5 with
      | some x2, some x3, some x4, some x5 =>
          Char.ofNat (4096 * x2 + 256 * x3 + 16 * x4 + x5) :: unescapeChars rest
      | _, _, _, _ => '%' :: unescapeChars cs
    else
      match hexVal c1, hexVal c2 with
      | some x1, some x2 => Char.ofNat (16 * x1 + x2) :: unescapeChars rest5
      | _, _ => '%' :: unescapeChars cs
  | '%' :: cs@(c1 :: c2 :: rest) =>
    match hexVal c1, hexVal c2 with
    | some x1, some x2 => Char.ofNat (16 * x1 + x2) :: unescapeChars rest
    | _, _ => '%' :: unescapeChars cs
  | '%' :: cs => '%' :: unescapeChars cs
  | c :: cs => c :: unescapeChars cs

/-- The transcoding `rawText = unescape(encodeURIComponent(rawText))`
performed by `parseMIME` before handing the input to `mailreader.parse`. -/
def transcodeChars (l : List Char) : List Char :=
  unescapeChars (encodeURIComponentChars l)

/-- String-level transcoding. -/
def transcodeStr (s : String) : String :=
  String.mk (transcodeChars s.data)

/-- Embedding of `parseMessage`: dispatch on the MIME-header signature, then
run the MIME path (through the structural-parser collaborator
`mailreaderParse`, applied to the transcoded input) or the inline path. -/
def parseMessageEvents (S A H eH a2s : String → String)
    (mailreaderParse : String → List Part) (rawText : String)
    (encoding : String) (noEvent : Bool) : List Event :=
  if startsWithMIMEHeader rawText then
    parseMIMEEvents S A H eH a2s (mailreaderParse (transcodeStr rawText)) encoding noEvent
  else
    parseInlineEvents A H (hasLegacyHTMLTag rawText) rawText encoding

/-! ## Encode side: the four builders of `mime.js` -/

/-- Modelled from the spec: `byteCount` from `lib/util` (not under the shown
sources) is the byte length of a string, spec sections 4.9 and 8
(`byteLength(m)` with UTF-8 content). -/
def byteCount (s : String) : Nat :=
  (utf8Bytes s.data).length

/-- `MvError` from `lib/util`: a message plus a stable machine-readable
code. -/
structure MvError where
  message : String
  code : String
deriving DecidableEq, Repr

/-- The error thrown by every builder on quota violation. -/
def quotaError : MvError :=
  ⟨"Mail content exceeds quota limit.", "ENCRYPT_QUOTA_SIZE"⟩

/-- An attachment of a compose request. -/
structure Attachment where
  name : String
  content : String
  size : Nat
deriving DecidableEq, Repr

/-- A node of the MIME tree assembled through `emailjs-mime-builder`
(content type, headers in insertion order, body content, optional filename,
ordered children). -/
structure MimeNode where
  contentType : Option String
  headers : List (String × String)
  content : String
  filename : Option String
  children : List MimeNode

/-- Result of `buildMail`: either the raw message string (degenerate
single-part case) or a MIME tree handed to the serializer. -/
inductive BuildOutput where
  | raw (s : String)
  | mime (node : MimeNode)

/-- The quota test `quota && (quotaSize > quota)` shared by all builders:
an absent or zero quota is falsy and disables the check. -/
def quotaExceededB (quota : Option Int) (quotaSize : Nat) : Bool :=
  match quota with
  | none => false
  | some q => decide (q ≠ 0) && decide ((quotaSize : Int) > q)

/-- Sum of the declared attachment sizes. -/
def sumSizes (attachments : List Attachment) : Nat :=
  (attachments.map Attachment.size).sum

/-- The byte count accumulated by `buildMail`: the message's bytes when the
message is truthy, plus each attachment's declared size. -/
def buildMailQuotaSize (message : String) (attachments : List Attachment) : Nat :=
  (if message ≠ "" then byteCount message else 0) + sumSizes attachments

/-- The `text/plain` child appended for the message body. -/
def textPartNode (message : String) : MimeNode :=
  ⟨some "text/plain", [("content-transfer-encoding", "quoted-printable")],
   message, none, []⟩

/-- The child appended for one attachment of `buildMail` (built through
`createChild(null, {filename})`). -/
def attachmentNode (a : Attachment) : MimeNode :=
  ⟨none,
   [("content-transfer-encoding", "base64"), ("content-disposition", "attachment")],
   a.content, some a.name, []⟩

/-- The `multipart/mixed` tree assembled by `buildMail`. -/
def buildMailNode (message : String) (attachments : List Attachment) : MimeNode :=
  ⟨some "multipart/mixed", [],
   "", none,
   (if message ≠ "" then [textPartNode message] else []) ++
     attachments.map attachmentNode⟩

/-- Embedding of `buildMail({message, attachments, quota, pgpMIME})`. -/
def buildMail (message : String) (attachments : List Attachment)
    (quota : Option Int) (pgpMIME : Bool) : Except MvError BuildOutput :=
  if quotaExceededB quota (buildMailQuotaSize message attachments) then
    .error quotaError
  else if ¬attachments.isEmpty ∨ pgpMIME then
    .ok (.mime (buildMailNode message attachments))
  else
    .ok (.raw message)

/-- The fixed explanatory body of the `multipart/encrypted` container. -/
def pgpMainContent : String :=
  "This is an OpenPGP/MIME encrypted message (RFC 2440 and 3156)"

/-- The literal body of the version-identification part. -/
def pgpVersionContent : String := "Version: 1"

/-- The byte count accumulated by `buildPGPMail`: container body, version
part body, armored ciphertext. -/
def buildPGPMailQuotaSize (armored : String) : Nat :=
  byteCount pgpMainContent + byteCount pgpVersionContent + byteCount armored

/-- The `application/pgp-encrypted` version-identification part. -/
def pgpVersionNode : MimeNode :=
  ⟨some "application/pgp-encrypted",
   [("content-description", "PGP/MIME version identification")],
   pgpVersionContent, none, []⟩

/-- The `application/octet-stream` ciphertext part named `encrypted.asc`. -/
def pgpArmoredNode (armored : String) : MimeNode :=
  ⟨some "application/octet-stream; name=\"encrypted.asc\"",
   [("content-description", "OpenPGP encrypted message"),
    ("content-disposition", "inline; filename=\"encrypted.asc\"")],
   armored, none, []⟩

/-- Embedding of `buildPGPMail({armored, sender, to, cc, subject, quota})`. -/
def buildPGPMail (armored sender : String) (recipients : List String)
    (cc : Option (List String)) (subject : String) (quota : Option Int) :
    Except MvError MimeNode :=
  if quotaExceededB quota (buildPGPMailQuotaSize armored) then
    .error quotaError
  else
    .ok ⟨some "multipart/encrypted; protocol=\"application/pgp-encrypted\";",
         [("from", sender), ("to", String.intercalate ", " recipients),
          ("subject", subject)] ++
           (match cc with
            | some l => [("cc", String.intercalate ", " l)]
            | none => []),
         pgpMainContent, none,
         [pgpVersionNode, pgpArmoredNode armored]⟩

/-- The byte count accumulated by `buildTextMail`: the armored body. -/
def buildTextMailQuotaSize (armored : String) : Nat :=
  byteCount armored

/-- Embedding of `buildTextMail({armored, sender, to, subject, quota})`. -/
def buildTextMail (armored sender : String) (recipients : List String)
    (subject : String) (quota : Option Int) : Except MvError MimeNode :=
  if quotaExceededB quota (buildTextMailQuotaSize armored) then
    .error quotaError
  else
    .ok ⟨some "text/plain",
         [("from", sender), ("to", String.intercalate ", " recipients),
          ("subject", subject)],
         armored, none, []⟩

/-- The byte count accumulated by `buildMailWithHeader`: same accumulation
as `buildMail`. -/
def buildMailWithHeaderQuotaSize (message : String)
    (attachments : List Attachment) : Nat :=
  (if message ≠ "" then byteCount message else 0) + sumSizes attachments

/-- The child appended for one attachment of `buildMailWithHeader`; `hash`
is the value of `getHash()` for this attachment (random, supplied by
`lib/util`). -/
def attachmentNodeWithId (hash : String) (a : Attachment) : MimeNode :=
  ⟨none,
   [("content-transfer-encoding", "base64"), ("content-disposition", "attachment"),
    ("X-Attachment-Id", "mv_" ++ hash),
    ("Content-ID", "<mv_" ++ hash ++ ">")],
   a.content, some a.name, []⟩

/-- Embedding of `buildMailWithHeader({message, attachments, sender, to,
subject, quota})`; `getHash` supplies the random hash for the attachment at
each position. -/
def buildMailWithHeader (getHash : Nat → String) (message : String)
    (attachments : List Attachment) (sender : String) (recipients : List String)
    (subject : String) (quota : Option Int) : Except MvError MimeNode :=
  if quotaExceededB quota (buildMailWithHeaderQuotaSize message attachments) then
    .error quotaError
  else
    .ok ⟨some "multipart/mixed",
         [("from", sender), ("to", String.intercalate ", " recipients),
          ("subject", subject)],
         "", none,
         (if message ≠ "" then [textPartNode message] else []) ++
           (attachments.enum.map fun p => attachmentNodeWithId (getHash p.1) p.2)⟩

/-- Is a builder result a success? -/
def exceptOk {α : Type} : Except MvError α → Bool
  | .ok _ => true
  | .error _ => false

/-- The children of a successfully built MIME tree. -/
def resultChildren : Except MvError MimeNode → List MimeNode
  | .ok n => n.children
  | .error _ => []

mutual

/-- Size of one part (for induction over part trees). -/
def partSize : Part → Nat
  | .leaf _ _ _ => 1
  | .node _ ch => 1 + partsSize ch

/-- Size of a part list. -/
def partsSize : List Part → Nat
  | [] => 0
  | p :: ps => partSize p + partsSize ps

end

/-! # Theorems -/

/-! ## Shared helper lemmas -/

theorem byteCount_empty : byteCount "" = 0 := rfl

theorem buildMailQuotaSize_eq (m : String) (atts : List Attachment) :
    buildMailQuotaSize m atts = byteCount m + sumSizes atts := by
  unfold buildMailQuotaSize
  by_cases h : m = ""
  · subst h; simp [byteCount_empty]
  · simp [h]

theorem quotaExceededB_falsy (q : Option Int) (h : q = none ∨ q = some 0)
    (size : Nat) : quotaExceededB q size = false := by
  rcases h with h | h <;> subst h <;> simp [quotaExceededB]

theorem messageEvents_append (a b : List Event) :
    messageEvents (a ++ b) = messageEvents a ++ messageEvents b := by
  simp [messageEvents]

theorem messageEvents_nil : messageEvents [] = [] := rfl

theorem messageEvents_message_cons (b : String) (l : List Event) :
    messageEvents (Event.message b :: l) = b :: messageEvents l := rfl

theorem messageEvents_attachment_map {α : Type} (l : List α) (f g : α → String) :
    messageEvents (l.map fun p => Event.attachment (f p) (g p)) = [] := by
  induction l with
  | nil => rfl
  | cons p rest ih => simp [messageEvents]

theorem attachmentEvents_append (a b : List Event) :
    attachmentEvents (a ++ b) = attachmentEvents a ++ attachmentEvents b := by
  simp [attachmentEvents]

theorem attachmentEvents_attachment_map {α : Type} (l : List α) (f g : α → String) :
    attachmentEvents (l.map fun p => Event.attachment (f p) (g p)) =
      l.map fun p => (f p, g p) := by
  induction l with
  | nil => rfl
  | cons p rest ih => simpa [attachmentEvents] using ih

theorem filterBodyParts_nil (ty : String) : filterBodyParts [] ty = [] := rfl

/-! ## Claim C1 — quota boundary of `buildMail` -/

/-- Claim C1 (corrected): for a plain-text message with no attachments,
`buildMail` with `quota = byteCount(m) - 1` throws the `ENCRYPT_QUOTA_SIZE`
error provided `byteCount m ≠ 1` (otherwise that quota is `0`, which is
falsy and disables the check), and `quota = byteCount(m)` always succeeds,
returning the raw message itself. -/
theorem buildMail_quota_boundary_amended (m : String) (h : byteCount m ≠ 1) :
    buildMail m [] (some ((byteCount m : Int) - 1)) false = .error quotaError ∧
    buildMail m [] (some (byteCount m : Int)) false = .ok (.raw m) := by
  have hsize : buildMailQuotaSize m [] = byteCount m := by
    rw [buildMailQuotaSize_eq]; simp [sumSizes]
  constructor
  · have hq : quotaExceededB (some ((byteCount m : Int) - 1))
        (buildMailQuotaSize m []) = true := by
      rw [hsize]
      simp only [quotaExceededB, Bool.and_eq_true, decide_eq_true_eq]
      omega
    simp [buildMail, hq]
  · have hq : quotaExceededB (some (byteCount m : Int))
        (buildMailQuotaSize m []) = false := by
      rw [hsize]
      simp only [quotaExceededB, Bool.and_eq_false_iff, decide_eq_false_iff_not]
      omega
    simp [buildMail, hq]

/-- Witness for C1 at `m = "ab"` (2 bytes): quota 1 fails with the quota
error, quota 2 succeeds. -/
theorem buildMail_quota_boundary_witness :
    byteCount "ab" ≠ 1 ∧
    (buildMail "ab" [] (some ((byteCount "ab" : Int) - 1)) false = .error quotaError ∧
     buildMail "ab" [] (some (byteCount "ab" : Int)) false = .ok (.raw "ab")) :=
  ⟨by decide, buildMail_quota_boundary_amended "ab" (by decide)⟩

/-- Counterexample to C1 as stated: for the one-byte message `"a"`,
`quota = byteCount("a") - 1 = 0` is falsy, the quota check is skipped and
the call succeeds instead of throwing. -/
theorem buildMail_quota_zero_counterexample :
    buildMail "a" [] (some ((byteCount "a" : Int) - 1)) false = .ok (.raw "a") := rfl

/-! ## Claim C2 — PGP/MIME child order -/

/-- Claim C2: whenever `buildPGPMail` returns a built container, its child
list is exactly the version-identification part (`application/pgp-encrypted`,
body `Version: 1`) followed by the ciphertext part
(`application/octet-stream; name="encrypted.asc"` carrying the armored
text), in that order. -/
theorem buildPGPMail_children_order (armored sender : String)
    (recipients : List String) (cc : Option (List String)) (subject : String)
    (quota : Option Int)
    (h : exceptOk (buildPGPMail armored sender recipients cc subject quota) = true) :
    resultChildren (buildPGPMail armored sender recipients cc subject quota) =
      [pgpVersionNode, pgpArmoredNode armored] := by
  unfold buildPGPMail at h ⊢
  by_cases hq : quotaExceededB quota (buildPGPMailQuotaSize armored) = true
  · rw [if_pos hq] at h; simp [exceptOk] at h
  · rw [if_neg hq] at h ⊢; rfl

/-- Witness for C2 at a concrete build. -/
theorem buildPGPMail_children_order_witness :
    resultChildren (buildPGPMail "ARMOR" "s@x" ["r@y"] none "subj" none) =
      [pgpVersionNode, pgpArmoredNode "ARMOR"] :=
  buildPGPMail_children_order "ARMOR" "s@x" ["r@y"] none "subj" none rfl

/-! ## Claim C7 — what the quota accumulators count -/

/-- Claim C7 (corrected): `buildMail`, `buildMailWithHeader` and
`buildTextMail` accumulate exactly the message/armored body's byte length
plus (for the mixed-mode builders) the declared attachment sizes; but
`buildPGPMail` additionally counts its fixed container body (61 bytes) and
the version part's body `Version: 1` (10 bytes), 71 extra bytes in total. -/
theorem quota_accumulation_amended (message armored : String)
    (atts : List Attachment) :
    buildMailQuotaSize message atts = byteCount message + sumSizes atts ∧
    buildMailWithHeaderQuotaSize message atts = byteCount message + sumSizes atts ∧
    buildTextMailQuotaSize armored = byteCount armored ∧
    buildPGPMailQuotaSize armored = byteCount armored + 71 := by
  refine ⟨buildMailQuotaSize_eq message atts, ?_, rfl, ?_⟩
  · unfold buildMailWithHeaderQuotaSize
    by_cases h : message = ""
    · subst h; simp [byteCount_empty]
    · simp [h]
  · unfold buildPGPMailQuotaSize
    have h1 : byteCount pgpMainContent = 61 := rfl
    have h2 : byteCount pgpVersionContent = 10 := rfl
    omega

/-- Counterexample to C7 as stated: with an empty armored body,
`buildPGPMail`'s accumulated count is 71, not `byteCount "" = 0` — the
fixed container body and the version part body also contribute. -/
theorem pgp_quota_extra_counterexample :
    buildPGPMailQuotaSize "" ≠ byteCount "" := by decide

/-! ## Claim C10 — absent or zero quota disables the check -/

/-- Claim C10: with `quota` absent or zero (both falsy), no builder variant
performs a quota check: every build succeeds regardless of the accumulated
size. -/
theorem zero_quota_unlimited (getHash : Nat → String)
    (message armored sender subject : String) (atts : List Attachment)
    (recipients : List String) (cc : Option (List String)) (pgpMIME : Bool)
    (q : Option Int) (h : q = none ∨ q = some 0) :
    exceptOk (buildMail message atts q pgpMIME) = true ∧
    exceptOk (buildPGPMail armored sender recipients cc subject q) = true ∧
    exceptOk (buildTextMail armored sender recipients subject q) = true ∧
    exceptOk (buildMailWithHeader getHash message atts sender recipients subject q) = true := by
  have hq : ∀ s, quotaExceededB q s = false := quotaExceededB_falsy q h
  refine ⟨?_, ?_, ?_, ?_⟩
  · simp only [buildMail, hq, Bool.false_eq_true, if_false]
    split <;> rfl
  · simp [buildPGPMail, hq, exceptOk]
  · simp [buildTextMail, hq, exceptOk]
  · simp [buildMailWithHeader, hq, exceptOk]

/-- Witness for C10: a zero quota with a large message and attachment still
builds in all four variants. -/
theorem zero_quota_unlimited_witness :
    exceptOk (buildMail "big message body" [⟨"f.bin", "DATA", 1000000⟩] (some 0) false) = true ∧
    exceptOk (buildPGPMail "armored" "s@x" ["r@y"] none "subj" (some 0)) = true ∧
    exceptOk (buildTextMail "armored" "s@x" ["r@y"] "subj" (some 0)) = true ∧
    exceptOk (buildMailWithHeader (fun _ => "h") "big message body"
      [⟨"f.bin", "DATA", 1000000⟩] "s@x" ["r@y"] "subj" (some 0)) = true :=
  zero_quota_unlimited (fun _ => "h") "big message body" "armored" "s@x" "subj"
    [⟨"f.bin", "DATA", 1000000⟩] ["r@y"] none false (some 0) (Or.inr rfl)

/-! ## Claims C3 and C9 — body selection -/

theorem isEmpty_false_of_filter_ne_nil (parsed : List Part) (ty : String)
    (h : filterBodyParts parsed ty ≠ []) : parsed.isEmpty = false := by
  cases parsed with
  | nil => exact absurd rfl h
  | cons p rest => rfl

/-- Claim C3: on a tree offering both html-kind and text-kind parts,
decoding with encoding `html` emits exactly the sanitized html parts
(joined by the rule separator) and decoding with encoding `text` emits
exactly the text parts' content verbatim (joined by blank lines) — neither
direction converts the other representation. -/
theorem body_selection_preference (S A H eH a2s : String → String)
    (parsed : List Part)
    (hH : filterBodyParts parsed "html" ≠ [])
    (hT : filterBodyParts parsed "text" ≠ []) :
    messageEvents (parseMIMEEvents S A H eH a2s parsed "html" false) =
      [S (String.intercalate "\n<hr>\n"
        ((filterBodyParts parsed "html").map Part.contentStr))] ∧
    messageEvents (parseMIMEEvents S A H eH a2s parsed "text" false) =
      [String.intercalate "\n\n"
        ((filterBodyParts parsed "text").map Part.contentStr)] := by
  have hne := isEmpty_false_of_filter_ne_nil parsed "html" hH
  have hHe : (filterBodyParts parsed "html").isEmpty = false := by
    simp [List.isEmpty_iff, hH]
  have hTe : (filterBodyParts parsed "text").isEmpty = false := by
    simp [List.isEmpty_iff, hT]
  constructor
  · unfold parseMIMEEvents selectBody
    simp [hne, hHe, messageEvents_append, messageEvents_attachment_map, messageEvents]
  · unfold parseMIMEEvents selectBody
    simp [hne, hTe, messageEvents_append, messageEvents_attachment_map, messageEvents]

/-- Witness for C3 on a tree with one html part and one text part. -/
theorem body_selection_preference_witness :
    messageEvents (parseMIMEEvents (fun s => "S:" ++ s) id id id id
      [Part.leaf "html" "" "H", Part.leaf "text" "" "T"] "html" false) = ["S:H"] ∧
    messageEvents (parseMIMEEvents (fun s => "S:" ++ s) id id id id
      [Part.leaf "html" "" "H", Part.leaf "text" "" "T"] "text" false) = ["T"] :=
  body_selection_preference (fun s => "S:" ++ s) id id id id
    [Part.leaf "html" "" "H", Part.leaf "text" "" "T"]
    (fun h => List.cons_ne_nil _ _ h) (fun h => List.cons_ne_nil _ _ h)

/-- Claim C9 (corrected): with encoding `html`, no html-kind parts and at
least one text-kind part, the emitted body is the auto-linked text parts
joined WITH the `<hr>` rule separator (without the newline padding used for
native html parts) — not joined without a separator as claimed. -/
theorem html_fallback_join_amended (S A H eH a2s : String → String)
    (parsed : List Part)
    (hH : filterBodyParts parsed "html" = [])
    (hT : filterBodyParts parsed "text" ≠ []) :
    messageEvents (parseMIMEEvents S A H eH a2s parsed "html" false) =
      [String.intercalate "<hr>"
        ((filterBodyParts parsed "text").map fun p => A p.contentStr)] := by
  have hne := isEmpty_false_of_filter_ne_nil parsed "text" hT
  have hTe : (filterBodyParts parsed "text").isEmpty = false := by
    simp [List.isEmpty_iff, hT]
  unfold parseMIMEEvents selectBody
  simp [hne, hH, hTe, messageEvents_append, messageEvents_attachment_map, messageEvents]

/-- Witness for C9 (amended) on a tree with two text parts. -/
theorem html_fallback_join_witness :
    messageEvents (parseMIMEEvents id (fun s => "A:" ++ s) id id id
      [Part.leaf "text" "" "a", Part.leaf "text" "" "b"] "html" false) =
      ["A:a<hr>A:b"] :=
  html_fallback_join_amended id (fun s => "A:" ++ s) id id id
    [Part.leaf "text" "" "a", Part.leaf "text" "" "b"] rfl
    (fun h => List.cons_ne_nil _ _ h)

/-- Counterexample to C9 as stated: with the conversions instantiated to
the identity, two text parts `"a"`, `"b"` produce `"a<hr>b"`, which differs
from the separator-less join `"ab"` the claim requires. -/
theorem html_fallback_separator_counterexample :
    messageEvents (parseMIMEEvents (fun s => s) (fun s => s) (fun s => s)
      (fun s => s) (fun s => s)
      [Part.leaf "text" "" "a", Part.leaf "text" "" "b"] "html" false) = ["a<hr>b"] ∧
    ("a<hr>b" : String) ≠
      String.intercalate "" (["a", "b"].map fun s => s) := by
  exact ⟨rfl, by decide⟩

/-! ## Claim C5 — number of message-callback invocations -/

theorem messageCount_parseMIME_le (S A H eH a2s : String → String)
    (parsed : List Part) (encoding : String) (noEvent : Bool) :
    messageCount (parseMIMEEvents S A H eH a2s parsed encoding noEvent) ≤
      (if noEvent then 2 else 1) := by
  unfold parseMIMEEvents messageCount
  rcases hn : noEvent <;> rcases hp : parsed.isEmpty <;>
    rcases hs : selectBody S A H parsed encoding <;>
      simp [-List.filterMap_map, hp, hs, messageEvents_append,
        messageEvents_attachment_map, messageEvents_nil,
        messageEvents_message_cons]

/-- Claim C5 (corrected): `onMessage` is invoked at most once per decode
call when the handlers' `noEvent` flag is unset; when `noEvent` is (still)
set at the end of the MIME callback, one additional empty-string invocation
fires, for at most two in total. -/
theorem message_callback_bound_amended (S A H eH a2s : String → String)
    (mrp : String → List Part) (rawText encoding : String) (noEvent : Bool) :
    messageCount (parseMessageEvents S A H eH a2s mrp rawText encoding noEvent) ≤
      (if noEvent then 2 else 1) := by
  unfold parseMessageEvents
  split
  · exact messageCount_parseMIME_le S A H eH a2s _ encoding noEvent
  · unfold parseInlineEvents
    have hb : ∀ b : String, messageCount [Event.message b] = 1 := fun _ => rfl
    split
    · rw [hb]; split <;> omega
    · split <;> (rw [hb]; split <;> omega)

/-- Counterexample to C5 as stated: a MIME input whose tree yields a text
body, decoded with handlers whose `noEvent` flag is set, invokes `onMessage`
twice (once with the body, once with the empty string). -/
theorem message_callback_twice_counterexample :
    messageCount (parseMessageEvents id id id id id
      (fun _ => [Part.leaf "text" "" "hi"]) "From: x" "text" true) = 2 := rfl

/-! ## Claim C4 — degenerate single-part round trip -/

/-- Claim C4: for a plain-text message — operationally, one that neither
matches the MIME-header dispatch signature nor contains a legacy closing-tag
marker — `buildMail` with no attachments returns the message itself, and
decoding that output with encoding `text` emits exactly the message,
unchanged. -/
theorem plain_roundtrip (S A H eH a2s : String → String)
    (mrp : String → List Part) (m : String) (noEvent : Bool)
    (hDispatch : startsWithMIMEHeader m = false)
    (hLegacy : hasLegacyHTMLTag m = false) :
    buildMail m [] none false = .ok (.raw m) ∧
    parseMessageEvents S A H eH a2s mrp m "text" noEvent = [Event.message m] := by
  constructor
  · simp [buildMail, quotaExceededB]
  · unfold parseMessageEvents
    rw [if_neg (by simp [hDispatch])]
    simp [parseInlineEvents, hLegacy]

/-- Witness for C4 at `m = "hello"`. -/
theorem plain_roundtrip_witness :
    buildMail "hello" [] none false = .ok (.raw "hello") ∧
    parseMessageEvents id id id id id (fun _ => []) "hello" "text" false =
      [Event.message "hello"] :=
  plain_roundtrip id id id id id (fun _ => []) "hello" false rfl rfl

/-! ## Claim C8 — recursive, order-preserving attachment discovery -/

theorem attachmentEvents_nil : attachmentEvents [] = [] := rfl

theorem attachmentEvents_message_cons (b : String) (l : List Event) :
    attachmentEvents (Event.message b :: l) = attachmentEvents l := rfl

theorem partSize_pos (p : Part) : 1 ≤ partSize p := by
  cases p <;> simp [partSize]

theorem filter_att_eq_dfs (n : Nat) : ∀ ps : List Part, partsSize ps ≤ n →
    wfParts ps = true → filterBodyParts ps "attachment" = dfsAttachments ps := by
  induction n with
  | zero =>
    intro ps h _
    cases ps with
    | nil => rfl
    | cons p rest =>
      have := partSize_pos p
      simp [partsSize] at h
      omega
  | succ n ih =>
    intro ps h hwf
    cases ps with
    | nil => rfl
    | cons p rest =>
      have hrest : partsSize rest ≤ n := by
        have := partSize_pos p; simp [partsSize] at h; omega
      simp only [wfParts, Bool.and_eq_true] at hwf
      obtain ⟨hwp, hwrest⟩ := hwf
      cases p with
      | leaf t f c =>
        simp [filterBodyParts, filterOnePart, dfsAttachments, dfsAttachmentsOne,
          ih rest hrest hwrest]
      | node t ch =>
        simp only [wfPart, Bool.and_eq_true, Bool.not_eq_true',
          Bool.or_eq_false_iff, decide_eq_false_iff_not] at hwp
        obtain ⟨⟨⟨ht1, ht2⟩, ht3⟩, hwch⟩ := hwp
        have hch : partsSize ch ≤ n := by
          simp [partsSize, partSize] at h; omega
        simp [filterBodyParts, filterOnePart, dfsAttachments, dfsAttachmentsOne,
          ht3, ih ch hch hwch, ih rest hrest hwrest]

/-- Claim C8: on trees conforming to the spec's data model, the attachment
callback is invoked exactly once per attachment-kind part anywhere in the
tree — containers are visited recursively at any depth — in depth-first
tree order, preserving the order of container children. -/
theorem attachment_emission_dfs (S A H eH a2s : String → String)
    (parsed : List Part) (encoding : String) (noEvent : Bool)
    (hwf : wfParts parsed = true) :
    attachmentEvents (parseMIMEEvents S A H eH a2s parsed encoding noEvent) =
      (dfsAttachments parsed).map fun p => (eH p.filenameStr, a2s p.contentStr) := by
  have hfd := filter_att_eq_dfs (partsSize parsed) parsed le_rfl hwf
  unfold parseMIMEEvents
  cases hp : parsed.isEmpty with
  | true =>
    have hnil : parsed = [] := by simpa [List.isEmpty_iff] using hp
    subst hnil
    rcases noEvent <;>
      simp [attachmentEvents_append, attachmentEvents_nil,
        attachmentEvents_message_cons, dfsAttachments]
  | false =>
    rw [if_neg (by simp [hp])]
    rcases hs : selectBody S A H parsed encoding <;> rcases noEvent <;>
      simp [-List.filterMap_map, hs, attachmentEvents_append,
        attachmentEvents_attachment_map, attachmentEvents_nil,
        attachmentEvents_message_cons, hfd]

/-- Witness for C8: attachments nested three containers deep are emitted,
in depth-first order, before a sibling attachment that follows them. -/
theorem attachment_emission_dfs_witness :
    attachmentEvents (parseMIMEEvents id id id id id
      [Part.node "container"
        [Part.node "container"
          [Part.node "container" [Part.leaf "attachment" "deep.txt" "D1"],
           Part.leaf "attachment" "mid.txt" "D2"],
         Part.leaf "text" "" "body"],
       Part.leaf "attachment" "top.txt" "D3"] "text" false) =
      [("deep.txt", "D1"), ("mid.txt", "D2"), ("top.txt", "D3")] :=
  attachment_emission_dfs id id id id id
    [Part.node "container"
      [Part.node "container"
        [Part.node "container" [Part.leaf "attachment" "deep.txt" "D1"],
         Part.leaf "attachment" "mid.txt" "D2"],
       Part.leaf "text" "" "body"],
     Part.leaf "attachment" "top.txt" "D3"] "text" false rfl

/-! ## Claim C6 — the pseudo-binary transcoding -/

theorem hexVal_hexDigitU : ∀ n, n < 16 → hexVal (hexDigitU n) = some n := by decide

theorem hexDigitU_ne_u : ∀ n, n < 16 → hexDigitU n ≠ 'u' := by decide

theorem unescape_nil : unescapeChars [] = [] := by simp [unescapeChars]

theorem unescape_cons (c : Char) (hc : c ≠ '%') (cs : List Char) :
    unescapeChars (c :: cs) = c :: unescapeChars cs := by
  rcases cs with _ | ⟨c1, _ | ⟨c2, _ | ⟨c3, _ | ⟨c4, _ | ⟨c5, rest⟩⟩⟩⟩⟩ <;>
    simp [unescapeChars, hc]

theorem unescape_two (a b : Char) (x y : Nat) (cs : List Char)
    (hx : hexVal a = some x) (hy : hexVal b = some y) (hu : a ≠ 'u') :
    unescapeChars ('%' :: a :: b :: cs) =
      Char.ofNat (16 * x + y) :: unescapeChars cs := by
  rcases cs with _ | ⟨c3, _ | ⟨c4, _ | ⟨c5, rest⟩⟩⟩ <;>
    simp [unescapeChars, hx, hy, hu]

theorem char_toNat_lt (c : Char) : c.toNat < 0x110000 := by
  rcases c.valid with h | ⟨_, h⟩
  · have h2 := UInt32.toNat_lt_of_lt (n := c.val) (m := 0xd800) (by decide) h
    simp only [Char.toNat]
    omega
  · have h2 := UInt32.toNat_lt_of_lt (n := c.val) (m := 0x110000) (by decide) h
    simp only [Char.toNat]
    omega

theorem toNat_ofNat_small (n : Nat) (h : n < 0xd800) : (Char.ofNat n).toNat = n := by
  have hv : n.isValidChar := Or.inl h
  rw [Char.ofNat, dif_pos hv]
  simp [Char.ofNatAux, Char.toNat, UInt32.toNat, BitVec.toNat_ofNatLt]

theorem utf8BytesChar_lt (c : Char) : ∀ b ∈ utf8BytesChar c, b < 256 := by
  have hv := char_toNat_lt c
  intro b hb
  simp only [utf8BytesChar] at hb
  split at hb <;> [skip; split at hb] <;> [skip; skip; split at hb] <;>
    simp at hb <;> omega

theorem unreserved_ne_percent (c : Char) (h : isUnreservedURI c = true) :
    c ≠ '%' := by
  intro hc
  subst hc
  simp [isUnreservedURI] at h

theorem unreserved_ascii (c : Char) (h : isUnreservedURI c = true) :
    c.toNat < 128 := by
  simp only [isUnreservedURI, Bool.or_eq_true, Bool.and_eq_true,
    decide_eq_true_eq] at h
  omega

theorem utf8BytesChar_ascii (c : Char) (h : c.toNat < 128) :
    utf8BytesChar c = [c.toNat] := by
  simp only [utf8BytesChar]
  rw [if_pos (by omega)]

theorem unescape_percent_blocks : ∀ bs : List Nat, (∀ b ∈ bs, b < 256) →
    ∀ cs : List Char,
    unescapeChars ((bs.map percentByte).flatten ++ cs) =
      bs.map Char.ofNat ++ unescapeChars cs := by
  intro bs
  induction bs with
  | nil => intro _ cs; simp
  | cons b rest ih =>
    intro hb cs
    have hb1 : b < 256 := hb b (List.mem_cons_self b rest)
    have hdiv : b / 16 < 16 := by omega
    have hmod : b % 16 < 16 := by omega
    simp only [List.map_cons, List.flatten_cons, percentByte, List.cons_append,
      List.append_assoc]
    rw [unescape_two (hexDigitU (b / 16)) (hexDigitU (b % 16)) (b / 16) (b % 16) _
      (hexVal_hexDigitU _ hdiv) (hexVal_hexDigitU _ hmod) (hexDigitU_ne_u _ hdiv)]
    have hb2 : 16 * (b / 16) + b % 16 = b := by omega
    simp only [List.nil_append]
    rw [hb2, ih (fun x hx => hb x (List.mem_cons_of_mem b hx)) cs]

theorem transcode_eq_utf8 (l : List Char) :
    transcodeChars l = (utf8Bytes l).map Char.ofNat := by
  unfold transcodeChars
  induction l with
  | nil => simp [encodeURIComponentChars, utf8Bytes, unescape_nil]
  | cons c cs ih =>
    simp only [encodeURIComponentChars, utf8Bytes, List.map_append]
    by_cases h : isUnreservedURI c = true
    · rw [encodeURIChar, if_pos h, List.cons_append,
        unescape_cons c (unreserved_ne_percent c h)]
      simp only [List.nil_append]
      rw [ih, utf8BytesChar_ascii c (unreserved_ascii c h)]
      simp
    · rw [encodeURIChar, if_neg h,
        unescape_percent_blocks (utf8BytesChar c) (utf8BytesChar_lt c)
          (encodeURIComponentChars cs), ih]

theorem utf8Bytes_lt (l : List Char) : ∀ b ∈ utf8Bytes l, b < 256 := by
  induction l with
  | nil => simp [utf8Bytes]
  | cons c cs ih =>
    intro b hb
    simp only [utf8Bytes, List.mem_append] at hb
    rcases hb with hb | hb
    · exact utf8BytesChar_lt c b hb
    · exact ih b hb

theorem utf16_map_ofNat (bs : List Nat) (h : ∀ b ∈ bs, b < 256) :
    utf16CodeUnits (bs.map Char.ofNat) = bs := by
  induction bs with
  | nil => rfl
  | cons b rest ih =>
    have hb : b < 256 := h b (List.mem_cons_self b rest)
    have ht : (Char.ofNat b).toNat = b := toNat_ofNat_small b (by omega)
    simp only [List.map_cons, utf16CodeUnits, utf16Units, ht]
    rw [if_pos (by omega), ih (fun x hx => h x (List.mem_cons_of_mem b hx))]
    rfl

/-- Claim C6 (corrected): the raw string handed to the structural parser is
NOT the low-byte narrowing of the input's UTF-16 code units; it is the
UTF-8 encoding of the input, one code unit per byte.  (For all-ASCII input
the two coincide.) -/
theorem transcode_utf8_amended (l : List Char) :
    (transcodeChars l).map Char.toNat = utf8Bytes l ∧
    utf16CodeUnits (transcodeChars l) = utf8Bytes l := by
  have h := transcode_eq_utf8 l
  have hlt := utf8Bytes_lt l
  constructor
  · rw [h, List.map_map]
    have hc : ∀ b ∈ utf8Bytes l, (Char.toNat ∘ Char.ofNat) b = id b := by
      intro b hb
      have := hlt b hb
      simpa using toNat_ofNat_small b (by omega)
    rw [List.map_congr_left hc, List.map_id]
  · rw [h, utf16_map_ofNat _ hlt]

/-- Counterexample to C6 as stated: for the single character U+00E9 the
transcoded string has the two code units `[0xC3, 0xA9]` (its UTF-8 bytes),
not the single low byte `[0xE9]` position for position. -/
theorem transcode_low_byte_counterexample :
    utf16CodeUnits (transcodeChars [Char.ofNat 0xE9]) ≠
      (utf16CodeUnits [Char.ofNat 0xE9]).map (fun u => u % 256) := by
  rw [transcode_eq_utf8 [Char.ofNat 0xE9]]
  decide

end Mvelo
